import Mathlib

/-!
Shallow embedding of `src/app_py_herramienta_de_análisis_de_precios.py`,
a Streamlit price-analysis dashboard.  CSV cells, column names and raw
field values are modelled as strings (we model pandas cells as
`Option String`, `none` standing for a missing value / NaN); prices are
rationals; dates are a year/month/day structure.  Python string
operations used by the source are re-implemented on `List Char` so that
all definitions reduce in the kernel.
-/

/-- Split a character list at every occurrence of `sep`
(the semantics of Python's `str.split(sep)`). -/
def splitOnChar (sep : Char) : List Char → List (List Char)
  | [] => [[]]
  | c :: rest =>
    let r := splitOnChar sep rest
    if c = sep then [] :: r
    else
      match r with
      | h :: t => (c :: h) :: t
      | [] => [[c]]

/-- Strip whitespace from both ends of a character list
(Python `str.strip()`). -/
def trimChars (l : List Char) : List Char :=
  ((l.dropWhile Char.isWhitespace).reverse.dropWhile Char.isWhitespace).reverse

/-- `str.strip()` on a Lean string. -/
def strTrim (s : String) : String :=
  (trimChars s.toList).asString

/-- Lower-case a string character by character (`str.lower()`; the
source only applies it to ASCII tier names). -/
def strLower (s : String) : String :=
  (s.toList.map Char.toLower).asString

/-- Numeric value of a list of decimal digit characters. -/
def digitsToNat (l : List Char) : Nat :=
  l.foldl (fun a c => 10 * a + (c.toNat - 48)) 0

/-! ### Date parsing: `pd.to_datetime(_, format='%d-%m-%y', errors='coerce')` -/

structure Date where
  year : Nat
  month : Nat
  day : Nat
deriving DecidableEq

/-- Order key: chronological for calendar dates. -/
def Date.toKey (d : Date) : Nat := d.year * 10000 + d.month * 100 + d.day

/-- Comparison of dates (the `.dt.date >= start_date` comparisons of the
source). -/
def Date.Le (a b : Date) : Prop := a.toKey ≤ b.toKey

instance : DecidablePred fun p : Date × Date => Date.Le p.1 p.2 := by
  intro p; unfold Date.Le; infer_instance

instance (a b : Date) : Decidable (Date.Le a b) := by
  unfold Date.Le; infer_instance

def isLeapYear (y : Nat) : Bool :=
  (y % 4 = 0 && !(y % 100 = 0)) || (y % 400 = 0)

def daysInMonth (y m : Nat) : Nat :=
  if m = 2 then (if isLeapYear y then 29 else 28)
  else if m = 4 ∨ m = 6 ∨ m = 9 ∨ m = 11 then 30
  else 31

/-- `%y`: two-digit year pivot used by `strptime` (00–68 → 2000s,
69–99 → 1900s). -/
def yearOfTwoDigit (y : Nat) : Nat :=
  if y ≤ 68 then 2000 + y else 1900 + y

/-- A `%d`/`%m`/`%y` field: one or two decimal digits. -/
def okDateField (l : List Char) : Bool :=
  (l.length = 1 || l.length = 2) && l.all Char.isDigit

/-- Model of `pd.to_datetime(s, format='%d-%m-%y', errors='coerce')` on a
single string: `none` is NaT. -/
def parseDate (s : String) : Option Date :=
  match splitOnChar '-' s.toList with
  | [d, m, y] =>
    if okDateField d && okDateField m && okDateField y then
      let dv := digitsToNat d
      let mv := digitsToNat m
      let yv := yearOfTwoDigit (digitsToNat y)
      if 1 ≤ mv && mv ≤ 12 && 1 ≤ dv && dv ≤ daysInMonth yv mv then
        some ⟨yv, mv, dv⟩
      else none
    else none
  | _ => none

/-! ### Price normalization (source lines 63–67)

`price_series.str.replace(r'[^\d,.]', '', regex=True).str.replace(',', '')`
followed by `pd.to_numeric(..., errors='coerce')`.  (`\d` is modelled as
ASCII decimal digits.) -/

/-- A character kept by the regex `[^\d,.]` removal. -/
def keepPriceChar (c : Char) : Bool :=
  c.isDigit || c = ',' || c = '.'

/-- Value of a digits-and-at-most-one-dot string. -/
def ratOfDigitParts (cs : List Char) : ℚ :=
  match splitOnChar '.' cs with
  | [intPart, fracPart] =>
    (digitsToNat intPart : ℚ) + (digitsToNat fracPart : ℚ) / (10 ^ fracPart.length : ℚ)
  | [intPart] => (digitsToNat intPart : ℚ)
  | _ => 0

/-- Model of `pd.to_numeric(s, errors='coerce')` on the strings the
pipeline produces (after stripping, only digits and dots remain): valid
iff the string contains at least one digit, at most one dot and nothing
else. -/
def parseNumeric (s : String) : Option ℚ :=
  let cs := s.toList
  if cs.all (fun c => c.isDigit || c = '.') && cs.count '.' ≤ 1 && cs.any Char.isDigit then
    some (ratOfDigitParts cs)
  else none

/-- The price-cleaning function of `load_and_process_data` (lines 64–66):
drop every character that is not a digit, comma or dot; then drop the
commas; then parse as a number. -/
def cleanPrice (s : String) : Option ℚ :=
  parseNumeric (((s.toList.filter keepPriceChar).filter (fun c => ¬ (c = ','))).asString)

/-- `str(cell)` applied to a possibly missing cell (`str(nan) = "nan"`,
matching `astype(str)` on a missing value). -/
def astypeStr : Option String → String
  | some s => s
  | none => "nan"

/-! ### URL → domain (source line 44)

`urlparse(str(url)).netloc.replace('www.', '')`. -/

def isSchemeChar (c : Char) : Bool :=
  c.isAlpha || c.isDigit || c = '+' || c = '-' || c = '.'

/-- The part of the URL after `scheme:` when a valid scheme prefix is
present, otherwise the URL itself (Python `urllib.parse.urlsplit`). -/
def schemeRest (url : String) : String :=
  let cs := url.toList
  match cs.findIdx? (fun c => c = ':') with
  | none => url
  | some i =>
    if 0 < i && (cs.headD ' ').isAlpha && (cs.take i).all isSchemeChar then
      (cs.drop (i + 1)).asString
    else url

/-- `urlparse(url).netloc`: nonempty only when the after-scheme part
starts with `//`; runs up to the next `/`, `?` or `#`. -/
def netloc (url : String) : String :=
  let rest := (schemeRest url).toList
  match rest with
  | '/' :: '/' :: tail =>
    (tail.takeWhile (fun c => ¬ (c = '/' || c = '?' || c = '#'))).asString
  | _ => ""

/-- Python `s.replace('www.', '')`: remove every (left-to-right,
non-overlapping) occurrence of the substring `www.`. -/
def removeWwwAux : List Char → List Char
  | 'w' :: 'w' :: 'w' :: '.' :: rest => removeWwwAux rest
  | c :: rest => c :: removeWwwAux rest
  | [] => []

def removeWww (s : String) : String :=
  (removeWwwAux s.toList).asString

/-- The domain derivation of line 44:
`urlparse(str(url)).netloc.replace('www.', '')`. -/
def dominioOfUrl (cell : Option String) : String :=
  removeWww (netloc (astypeStr cell))

/-! ### CSV parsing: `pd.read_csv(io.BytesIO(...), sep=',', skipinitialspace=True)` -/

/-- An uploaded file: display name plus text content. -/
structure UploadedFile where
  name : String
  content : String
deriving DecidableEq

/-- `skipinitialspace=True`: spaces right after a delimiter are skipped. -/
def trimLeadingSpaces (l : List Char) : List Char :=
  l.dropWhile (fun c => c = ' ')

/-- A parsed cell: an empty field is a missing value (NaN). -/
def toCell (field : List Char) : Option String :=
  if field = [] then none else some field.asString

/-- A parsed table: raw column names and rows of cells. -/
structure CsvTable where
  cols : List String
  rows : List (List (Option String))
deriving DecidableEq

/-- Model of `pd.read_csv` with a fixed separator: lines split on
newlines (blank lines skipped), fields split on the separator with
`skipinitialspace`.  When the first data row has exactly one field more
than the header, that first field is the implicit index column
(pandas's index inference) and every row must have that width; otherwise
a row with more fields than the header is a tokenizing error and a
short row is padded with missing values. -/
def readCsv (sep : Char) (content : String) : Except String CsvTable :=
  let lines := (splitOnChar '\n' content.toList).filter (fun l => ¬ (l = []))
  match lines with
  | [] => .error "No columns to parse from file"
  | headerLine :: dataLines =>
    let hfields := (splitOnChar sep headerLine).map trimLeadingSpaces
    let n := hfields.length
    let cols := hfields.map List.asString
    let rawRows := dataLines.map (fun l => (splitOnChar sep l).map trimLeadingSpaces)
    match rawRows with
    | [] => .ok ⟨cols, []⟩
    | r0 :: _ =>
      if r0.length = n + 1 then
        if rawRows.all (fun r => r.length = n + 1) then
          .ok ⟨cols, rawRows.map (fun r => (r.drop 1).map toCell)⟩
        else .error "Error tokenizing data"
      else
        if rawRows.any (fun r => n < r.length) then
          .error "Error tokenizing data"
        else
          .ok ⟨cols, rawRows.map (fun r => (r.map toCell) ++ List.replicate (n - r.length) none)⟩

/-- Look a cell up by (trimmed) column name; a column absent from the
table or a missing cell both give `none`. -/
def getCell (cols : List String) (row : List (Option String)) (colName : String) : Option String :=
  match cols.findIdx? (fun c => c = colName) with
  | some i => (row.get? i).join
  | none => none

/-! ### Per-file processing (source lines 28–50) -/

/-- One source row after the per-file steps (lines 41–45): parsed date,
renamed product, derived domain, raw price string, raw tier. -/
structure StageRow where
  fecha : Option Date
  producto : Option String
  dominio : String
  priceStr : Option String
  price_level : Option String
deriving DecidableEq

/-- A warning/error message emitted while processing
(`st.warning`/`st.error` calls of the source). -/
inductive Warning where
  | parseError (file : String) (msg : String)
  | missingCols (file : String)
  | badDateFormat
deriving DecidableEq

/-- The file a warning names, when it names one. -/
def Warning.file? : Warning → Option String
  | .parseError f _ => some f
  | .missingCols f => some f
  | .badDateFormat => none

/-- What one accepted file contributes: whether it has a `price_level`
column, and its staged rows. -/
structure FileData where
  hasPL : Bool
  rows : List StageRow
deriving DecidableEq

def requiredCols : List String := ["Keyword", "price", "URL", "date"]

def stageRow (cols : List String) (row : List (Option String)) : StageRow :=
  { fecha := (getCell cols row "date").bind parseDate
    producto := getCell cols row "Keyword"
    dominio := dominioOfUrl (getCell cols row "URL")
    priceStr := getCell cols row "price"
    price_level := getCell cols row "price_level" }

/-- Lines 28–50: parse the file comma-delimited, trim the column names,
check the required columns, stage the rows; a parse error or a missing
required column skips the file with a warning naming it. -/
def processFile (f : UploadedFile) : Except Warning FileData :=
  match readCsv ',' f.content with
  | .error e => .error (.parseError f.name e)
  | .ok t =>
    if requiredCols.all (fun c => (t.cols.map strTrim).contains c) then
      .ok ⟨(t.cols.map strTrim).contains "price_level",
           t.rows.map (stageRow (t.cols.map strTrim))⟩
    else .error (.missingCols f.name)

def exOk? : Except Warning FileData → Option FileData
  | .ok d => some d
  | .error _ => none

def exErr? : Except Warning FileData → Option Warning
  | .ok _ => none
  | .error w => some w

def fileDatas (files : List UploadedFile) : List FileData :=
  (files.map processFile).filterMap exOk?

def fileWarnings (files : List UploadedFile) : List Warning :=
  (files.map processFile).filterMap exErr?

/-- The concatenation `pd.concat(all_data)` of the staged rows, in file
order, preserving within-file row order. -/
def stageRowsOf (files : List UploadedFile) : List StageRow :=
  ((fileDatas files).map FileData.rows).flatten

/-- `'price_level' in full_df.columns`: the concatenated frame has the
column when any accepted file has it. -/
def hasPLOf (files : List UploadedFile) : Bool :=
  (fileDatas files).any FileData.hasPL

/-! ### Cleaning, minimum computation and the full pipeline
(source lines 52–78) -/

/-- A row surviving the `fecha` and `price` drops (lines 58, 67). -/
structure PricedRow where
  fecha : Date
  producto : Option String
  dominio : String
  price : ℚ
  price_level : Option String
deriving DecidableEq

/-- Minimum of a list of rationals, `none` on the empty list. -/
def listMin : List ℚ → Option ℚ
  | [] => none
  | x :: xs => some (xs.foldl min x)

/-- The prices of the (`fecha`, `producto`) group of a row. -/
def groupPrices (all : List PricedRow) (d : Date) (p : String) : List ℚ :=
  (all.filter (fun x => decide (x.fecha = d) && decide (x.producto = some p))).map PricedRow.price

/-- `groupby(['fecha','producto'])['price'].transform('min')` for one
row: a missing `producto` is a missing group key, so no minimum. -/
def groupMin (all : List PricedRow) (r : PricedRow) : Option ℚ :=
  match r.producto with
  | some p => listMin (groupPrices all r.fecha p)
  | none => none

/-- One row of the cleaned dataset returned by `load_and_process_data`. -/
structure CleanRow where
  fecha : Date
  producto : Option String
  dominio : String
  price : ℚ
  price_level : Option String
  price_level_numeric : Option Nat
  precio_minimo : Option ℚ
  es_precio_mas_bajo : Bool
deriving DecidableEq

/-- The tier mapping of line 71: `{'bajo': 1, 'medio': 2, 'alto': 3}`. -/
def levelMap (s : String) : Option Nat :=
  if s = "bajo" then some 1
  else if s = "medio" then some 2
  else if s = "alto" then some 3
  else none

/-- Lines 70–76: derived tier, per-group minimum and the lowest-price
flag (`price == precio_minimo`; a comparison with a missing minimum is
false). -/
def enrich (all : List PricedRow) (hasPL : Bool) (r : PricedRow) : CleanRow :=
  { fecha := r.fecha
    producto := r.producto
    dominio := r.dominio
    price := r.price
    price_level := r.price_level
    price_level_numeric :=
      if hasPL then (r.price_level.map strLower).bind levelMap else none
    precio_minimo := groupMin all r
    es_precio_mas_bajo :=
      match groupMin all r with
      | some m => decide (r.price = m)
      | none => false }

/-- Lines 63–67: keep the rows whose date parsed and whose price string
cleans to a number. -/
def pricedRows (stage : List StageRow) : List PricedRow :=
  stage.filterMap (fun s =>
    match s.fecha with
    | some d => (cleanPrice (astypeStr s.priceStr)).map
        (fun v => ⟨d, s.producto, s.dominio, v, s.price_level⟩)
    | none => none)

/-- The value returned by `load_and_process_data`, together with the
warnings it emitted on the way. -/
structure ProcessResult where
  rows : List CleanRow
  hasPriceLevel : Bool
  warnings : List Warning
deriving DecidableEq

/-- `load_and_process_data` (lines 17–78): empty input gives an empty
frame with no warnings; each file is processed independently (errors
and missing columns skip it with a warning); the accepted frames are
concatenated; rows without a parsed date are dropped (all dropped: a
date-format error); rows whose price does not clean to a number are
dropped; the tier, group-minimum and lowest-price columns are added. -/
def load_and_process_data (files : List UploadedFile) : ProcessResult :=
  if files.isEmpty then ⟨[], false, []⟩ else
  let warns := fileWarnings files
  let datas := fileDatas files
  if datas.isEmpty then ⟨[], false, warns⟩ else
  let stage := stageRowsOf files
  let withDate := stage.filter (fun s => s.fecha.isSome)
  if withDate.isEmpty then ⟨[], false, warns ++ [.badDateFormat]⟩ else
  let hasPL := hasPLOf files
  let priced := pricedRows withDate
  ⟨priced.map (enrich priced hasPL), hasPL, warns⟩

/-! ### Sidebar and filtering (source lines 94–142) -/

/-- Lines 94–102: the app stops before the filters when no files are
uploaded, and stops with a no-valid-data warning (rendering no charts)
when the cleaned dataset is empty. -/
inductive AppPhase where
  | waitingForFiles
  | noValidData
  | rendering
deriving DecidableEq

def appPhase (files : List UploadedFile) : AppPhase :=
  if files.isEmpty then .waitingForFiles
  else if (load_and_process_data files).rows.isEmpty then .noValidData
  else .rendering

/-- Lines 122–124: the tier multiselect's options and default — the
distinct non-missing `price_level` values (sorting omitted: only
membership and nonemptiness matter downstream). -/
def defaultPriceLevels (data : ProcessResult) : List String :=
  (data.rows.filterMap CleanRow.price_level).dedup

/-- The sidebar selection: `st.date_input` yields a tuple of one or two
dates, the multiselects yield lists. -/
structure FilterSel where
  dateRange : List Date
  products : List String
  domains : List String
  priceLevels : List String

/-- `df['producto'].isin(selected_products)`: false on a missing value. -/
def prodMemB (sel : FilterSel) (r : CleanRow) : Bool :=
  match r.producto with
  | some p => decide (p ∈ sel.products)
  | none => false

/-- `filtered_df['price_level'].isin(selected_price_levels)`: false on a
missing value. -/
def tierMemB (sel : FilterSel) (r : CleanRow) : Bool :=
  match r.price_level with
  | some v => decide (v ∈ sel.priceLevels)
  | none => false

/-- The row-mask of lines 131–137: inclusive date range, selected
product, selected domain. -/
def baseFiltered (data : ProcessResult) (sel : FilterSel) (s e : Date) : List CleanRow :=
  data.rows.filter (fun r =>
    decide (Date.Le s r.fecha) && decide (Date.Le r.fecha e)
      && prodMemB sel r && decide (r.dominio ∈ sel.domains))

/-- Lines 128–142: with a complete two-date range, keep the rows inside
the inclusive range whose product and domain are selected; when the
frame has a `price_level` column and the tier selection is nonempty,
additionally keep only the rows whose tier is selected; with an
incomplete range the filtered frame is empty. -/
def filtered_df (data : ProcessResult) (sel : FilterSel) : List CleanRow :=
  match sel.dateRange with
  | [s, e] =>
    if data.hasPriceLevel && !sel.priceLevels.isEmpty then
      (baseFiltered data sel s e).filter (tierMemB sel)
    else baseFiltered data sel s e
  | _ => []

/-- Modelled from the spec: the lowest-price ranking bar chart is absent
from the source file (its ranking chart counts per-tier appearances
instead); per the spec it counts, per competitor domain, the filtered
rows with `es_precio_mas_bajo` true. -/
def lowestPriceRankingCount (filtered : List CleanRow) (d : String) : Nat :=
  (filtered.filter (fun r => decide (r.dominio = d) && r.es_precio_mas_bajo)).length

/-! ### Helper lemmas -/

theorem foldl_min_le_init (xs : List ℚ) (a : ℚ) : xs.foldl min a ≤ a := by
  induction xs generalizing a with
  | nil => simp
  | cons x xs ih =>
    simpa using le_trans (ih (min a x)) (min_le_left a x)

theorem foldl_min_le_mem (xs : List ℚ) (a : ℚ) : ∀ x ∈ xs, xs.foldl min a ≤ x := by
  induction xs generalizing a with
  | nil => simp
  | cons y ys ih =>
    intro x hx
    rcases List.mem_cons.mp hx with h | h
    · subst h
      exact le_trans (foldl_min_le_init ys (min a x)) (min_le_right a x)
    · exact ih (min a y) x h

theorem foldl_min_mem (xs : List ℚ) (a : ℚ) :
    xs.foldl min a = a ∨ xs.foldl min a ∈ xs := by
  induction xs generalizing a with
  | nil => left; rfl
  | cons y ys ih =>
    rcases ih (min a y) with h | h
    · rcases min_choice a y with hm | hm
      · left; simpa [hm] using h
      · right
        rw [List.foldl_cons, h, hm]
        exact List.mem_cons_self y ys
    · right; exact List.mem_cons_of_mem y h

theorem listMin_le {l : List ℚ} {m : ℚ} (h : listMin l = some m) : ∀ x ∈ l, m ≤ x := by
  cases l with
  | nil => simp [listMin] at h
  | cons a xs =>
    simp only [listMin, Option.some.injEq] at h
    subst h
    intro x hx
    rcases List.mem_cons.mp hx with h | h
    · subst h; exact foldl_min_le_init xs x
    · exact foldl_min_le_mem xs a x h

theorem listMin_mem {l : List ℚ} {m : ℚ} (h : listMin l = some m) : m ∈ l := by
  cases l with
  | nil => simp [listMin] at h
  | cons a xs =>
    simp only [listMin, Option.some.injEq] at h
    subst h
    rcases foldl_min_mem xs a with h | h
    · rw [h]; exact List.mem_cons_self a xs
    · exact List.mem_cons_of_mem a h

theorem listMin_isSome {l : List ℚ} (h : l ≠ []) : ∃ m, listMin l = some m := by
  cases l with
  | nil => exact absurd rfl h
  | cons a xs => exact ⟨xs.foldl min a, rfl⟩

/-- The priced rows the pipeline enriches (empty whenever any of the
early-return guards of `load_and_process_data` fires). -/
def corePriced (files : List UploadedFile) : List PricedRow :=
  pricedRows ((stageRowsOf files).filter (fun s => s.fecha.isSome))

theorem load_rows_eq (files : List UploadedFile) :
    (load_and_process_data files).rows
      = (corePriced files).map (enrich (corePriced files) (hasPLOf files)) := by
  unfold load_and_process_data corePriced
  by_cases h1 : files.isEmpty
  · have : files = [] := by cases files <;> simp_all
    subst this
    simp [stageRowsOf, fileDatas, pricedRows]
  · simp only [h1, Bool.false_eq_true, if_false]
    by_cases h2 : (fileDatas files).isEmpty
    · have hd : fileDatas files = [] := by
        cases hf : fileDatas files <;> simp_all
      simp [h2, stageRowsOf, hd, pricedRows]
    · simp only [h2, Bool.false_eq_true, if_false]
      by_cases h3 : ((stageRowsOf files).filter (fun s => s.fecha.isSome)).isEmpty
      · have hw : (stageRowsOf files).filter (fun s => s.fecha.isSome) = [] := by
          cases hf : (stageRowsOf files).filter (fun s => s.fecha.isSome) <;> simp_all
        simp [h3, hw, pricedRows]
      · simp [h3]

theorem mem_load_rows {files : List UploadedFile} {r : CleanRow} :
    r ∈ (load_and_process_data files).rows ↔
      ∃ q ∈ corePriced files, enrich (corePriced files) (hasPLOf files) q = r := by
  rw [load_rows_eq, List.mem_map]

theorem mem_groupPrices_iff {all : List PricedRow} {d : Date} {p : String} {x : ℚ} :
    x ∈ groupPrices all d p ↔ ∃ q ∈ all, q.fecha = d ∧ q.producto = some p ∧ q.price = x := by
  simp only [groupPrices, List.mem_map, List.mem_filter, Bool.and_eq_true, decide_eq_true_eq]
  constructor
  · rintro ⟨q, ⟨hq, hd, hp⟩, hx⟩
    exact ⟨q, hq, hd, hp, hx⟩
  · rintro ⟨q, hq, hd, hp, hx⟩
    exact ⟨q, ⟨hq, hd, hp⟩, hx⟩

@[simp] theorem enrich_fecha (all : List PricedRow) (hpl : Bool) (r : PricedRow) :
    (enrich all hpl r).fecha = r.fecha := rfl

@[simp] theorem enrich_producto (all : List PricedRow) (hpl : Bool) (r : PricedRow) :
    (enrich all hpl r).producto = r.producto := rfl

@[simp] theorem enrich_dominio (all : List PricedRow) (hpl : Bool) (r : PricedRow) :
    (enrich all hpl r).dominio = r.dominio := rfl

@[simp] theorem enrich_price (all : List PricedRow) (hpl : Bool) (r : PricedRow) :
    (enrich all hpl r).price = r.price := rfl

@[simp] theorem enrich_price_level (all : List PricedRow) (hpl : Bool) (r : PricedRow) :
    (enrich all hpl r).price_level = r.price_level := rfl

theorem mem_groupPrices_self {all : List PricedRow} {q : PricedRow} {p : String}
    (hq : q ∈ all) (hp : q.producto = some p) : q.price ∈ groupPrices all q.fecha p :=
  mem_groupPrices_iff.mpr ⟨q, hq, rfl, hp, rfl⟩

/-- Characterization of the lowest-price flag over the full cleaned
dataset: for a row with a product value, the flag is true exactly when
the row's price is no greater than every price of its
(`fecha`, `producto`) group. -/
theorem flag_iff_min (files : List UploadedFile) (r : CleanRow)
    (hr : r ∈ (load_and_process_data files).rows) (p : String) (hp : r.producto = some p) :
    r.es_precio_mas_bajo = true ↔
      ∀ r' ∈ (load_and_process_data files).rows,
        r'.fecha = r.fecha → r'.producto = r.producto → r.price ≤ r'.price := by
  obtain ⟨q, hq, rfl⟩ := mem_load_rows.mp hr
  have hpq : q.producto = some p := hp
  have hmem : q.price ∈ groupPrices (corePriced files) q.fecha p :=
    mem_groupPrices_self hq hpq
  have hne : groupPrices (corePriced files) q.fecha p ≠ [] := by
    intro h0
    rw [h0] at hmem
    exact List.not_mem_nil _ hmem
  obtain ⟨m, hm⟩ := listMin_isSome hne
  have hgm : groupMin (corePriced files) q = some m := by
    simp [groupMin, hpq, hm]
  have hflag : (enrich (corePriced files) (hasPLOf files) q).es_precio_mas_bajo
      = decide (q.price = m) := by
    simp [enrich, hgm]
  rw [load_rows_eq, hflag]
  simp only [enrich_fecha, enrich_producto, enrich_price, decide_eq_true_eq]
  constructor
  · intro heq r' hr' hfd hpd
    obtain ⟨q', hq', rfl⟩ := List.mem_map.mp hr'
    simp only [enrich_fecha, enrich_producto, enrich_price] at hfd hpd ⊢
    have hx : q'.price ∈ groupPrices (corePriced files) q.fecha p :=
      mem_groupPrices_iff.mpr ⟨q', hq', hfd, by rw [hpd, hpq], rfl⟩
    rw [heq]
    exact listMin_le hm _ hx
  · intro hall
    obtain ⟨q', hq', hfd, hpd, hpr⟩ := mem_groupPrices_iff.mp (listMin_mem hm)
    have h1 : q.price ≤ m := by
      have := hall (enrich (corePriced files) (hasPLOf files) q')
        (List.mem_map_of_mem _ hq')
      simp only [enrich_fecha, enrich_producto, enrich_price] at this
      rw [← hpr]
      exact this hfd (by rw [hpd, hpq])
    have h2 : m ≤ q.price := listMin_le hm _ hmem
    exact le_antisymm h1 h2

theorem mem_pricedRows {L : List StageRow} {q : PricedRow} :
    q ∈ pricedRows L ↔
      ∃ s ∈ L, s.fecha = some q.fecha
        ∧ cleanPrice (astypeStr s.priceStr) = some q.price
        ∧ s.producto = q.producto ∧ s.dominio = q.dominio ∧ s.price_level = q.price_level := by
  rw [pricedRows, List.mem_filterMap]
  constructor
  · rintro ⟨s, hs, hf⟩
    cases hd : s.fecha with
    | none => rw [hd] at hf; exact absurd hf (by simp)
    | some d =>
      rw [hd] at hf
      obtain ⟨v, hv, hq⟩ := Option.map_eq_some'.mp hf
      refine ⟨s, hs, ?_, ?_, ?_, ?_, ?_⟩ <;> rw [← hq] <;> simp [hd, hv]
  · rintro ⟨s, hs, hd, hv, hp, hdo, hpl⟩
    refine ⟨s, hs, ?_⟩
    rw [hd, hv]
    simp only [Option.map_some']
    congr 1
    cases q
    simp_all

theorem filterMap_filter_of_none {α β : Type} (f : α → Option β) (g : α → Bool)
    (h : ∀ a, g a = false → f a = none) (l : List α) :
    (l.filter g).filterMap f = l.filterMap f := by
  induction l with
  | nil => rfl
  | cons a t ih =>
    cases hg : g a with
    | false =>
      rw [List.filter_cons_of_neg (by simp [hg]), ih, List.filterMap_cons, h a hg]
    | true =>
      rw [List.filter_cons_of_pos (by simp [hg]), List.filterMap_cons, List.filterMap_cons, ih]

theorem length_filterMap_eq_length_filter {α β : Type} (f : α → Option β) (g : α → Bool)
    (h : ∀ a, (f a).isSome = g a) (l : List α) :
    (l.filterMap f).length = (l.filter g).length := by
  induction l with
  | nil => rfl
  | cons a t ih =>
    cases hfa : f a with
    | none =>
      have hga : g a = false := by rw [← h a, hfa]; rfl
      rw [List.filterMap_cons, hfa, List.filter_cons_of_neg (by simp [hga]), ih]
    | some b =>
      have hga : g a = true := by rw [← h a, hfa]; rfl
      rw [List.filterMap_cons, hfa, List.filter_cons_of_pos (by simp [hga]),
        List.length_cons, List.length_cons, ih]

theorem pricedRows_length (L : List StageRow) :
    (pricedRows L).length
      = (L.filter
          (fun s => s.fecha.isSome && (cleanPrice (astypeStr s.priceStr)).isSome)).length := by
  refine length_filterMap_eq_length_filter _ _ ?_ L
  intro s
  cases hd : s.fecha with
  | none => simp [hd]
  | some d => simp [hd]

theorem pricedRows_drop_invalid (L : List StageRow) :
    pricedRows L
      = pricedRows (L.filter (fun s => (cleanPrice (astypeStr s.priceStr)).isSome)) := by
  refine (filterMap_filter_of_none _ _ ?_ L).symm
  intro s hs
  cases hd : s.fecha with
  | none => rfl
  | some d =>
    have : cleanPrice (astypeStr s.priceStr) = none := by
      cases hv : cleanPrice (astypeStr s.priceStr) with
      | none => rfl
      | some v => rw [hv] at hs; exact absurd hs (by simp)
    simp [this]

/-! ### C1 — the lowest-price flag -/

/-- C1: in the cleaned dataset produced by `load_and_process_data`,
every row's `es_precio_mas_bajo` is true exactly when the row's price
equals the minimum price over all cleaned rows sharing its
(`fecha`, `producto`) pair, the minimum being taken over the full
cleaned dataset, so tied minima are all flagged true.  (Since the row
belongs to its own group, "equals the group minimum" is stated as
"is no greater than every price of the rows sharing the pair".) -/
theorem c1_lowest_price_flag (files : List UploadedFile) (r : CleanRow)
    (hr : r ∈ (load_and_process_data files).rows) (p : String)
    (hp : r.producto = some p) :
    r.es_precio_mas_bajo = true ↔
      ∀ r' ∈ (load_and_process_data files).rows,
        r'.fecha = r.fecha → r'.producto = r.producto → r.price ≤ r'.price :=
  flag_iff_min files r hr p hp

def c1File : UploadedFile :=
  ⟨"precios.csv",
    "Keyword,price,URL,date\np,5,https://a.com/,01-02-23\np,5,https://www.b.com/,01-02-23\np,7,https://c.com/,01-02-23"⟩

def c1Row : CleanRow :=
  ⟨⟨2023, 2, 1⟩, some "p", "a.com", 5, none, none, some 5, true⟩

theorem c1_lowest_price_flag_witness :
    c1Row ∈ (load_and_process_data [c1File]).rows
    ∧ c1Row.producto = some "p"
    ∧ (c1Row.es_precio_mas_bajo = true ↔
        ∀ r' ∈ (load_and_process_data [c1File]).rows,
          r'.fecha = c1Row.fecha → r'.producto = c1Row.producto → c1Row.price ≤ r'.price) :=
  ⟨by decide, by decide, c1_lowest_price_flag [c1File] c1Row (by decide) "p" (by decide)⟩

/-! ### C2 — Schema C price normalization -/

/-- The Schema C normalization rule as the spec words it: first remove
every character that is not a digit, comma or dot; then remove all
commas; then parse the remainder as a number. -/
def specSchemaCPriceRule (s : String) : Option ℚ :=
  parseNumeric
    (((s.toList.filter (fun c => c.isDigit || c = ',' || c = '.')).filter
        (fun c => ¬ (c = ','))).asString)

/-- C2: the pipeline's price normalization is exactly the
strip-then-drop-commas-then-parse rule; `"1,234.56"` (also with stray
non-numeric characters) yields exactly 1234.56; and staged rows whose
price string does not reduce to a valid number contribute nothing to
the cleaned rows (they are dropped). -/
theorem c2_price_normalization :
    (∀ s, cleanPrice s = specSchemaCPriceRule s)
    ∧ cleanPrice "1,234.56" = some (1234.56 : ℚ)
    ∧ cleanPrice "ab$1,234.56xy" = some (1234.56 : ℚ)
    ∧ ∀ stage : List StageRow,
        pricedRows stage
          = pricedRows
              (stage.filter (fun s => (cleanPrice (astypeStr s.priceStr)).isSome)) := by
  refine ⟨fun s => rfl, ?_, ?_, pricedRows_drop_invalid⟩
  · calc cleanPrice "1,234.56" = some ((1234 : ℚ) + 56 / 10 ^ 2) := by rfl
      _ = some (1234.56 : ℚ) := by norm_num
  · calc cleanPrice "ab$1,234.56xy" = some ((1234 : ℚ) + 56 / 10 ^ 2) := by rfl
      _ = some (1234.56 : ℚ) := by norm_num

/-! ### C8 — every cleaned row has a parsed date and a parsed price -/

/-- C8: every row of the dataset returned by `load_and_process_data`
originates from a staged source row whose `date` string parsed
(`DD-MM-YY`) to exactly the row's `fecha` and whose price string
normalized to exactly the row's numeric `precio` — no placeholders —
and the number of cleaned rows equals the number of staged rows passing
both parses, so rows failing either parse are excluded. -/
theorem c8_cleaned_rows_valid (files : List UploadedFile) :
    (∀ r ∈ (load_and_process_data files).rows,
      ∃ s ∈ stageRowsOf files,
        s.fecha = some r.fecha
        ∧ cleanPrice (astypeStr s.priceStr) = some r.price
        ∧ s.producto = r.producto ∧ s.dominio = r.dominio
        ∧ s.price_level = r.price_level)
    ∧ (load_and_process_data files).rows.length
        = ((stageRowsOf files).filter
            (fun s => s.fecha.isSome && (cleanPrice (astypeStr s.priceStr)).isSome)).length := by
  constructor
  · intro r hr
    obtain ⟨q, hq, rfl⟩ := mem_load_rows.mp hr
    obtain ⟨s, hs, hd, hv, hp, hdo, hpl⟩ := mem_pricedRows.mp hq
    exact ⟨s, List.mem_of_mem_filter hs, hd, hv, hp, hdo, hpl⟩
  · rw [load_rows_eq, List.length_map, corePriced, pricedRows_length, List.filter_filter]
    congr 1
    apply List.filter_congr
    intro s _
    cases hd : s.fecha <;> simp [hd]

def c8File : UploadedFile :=
  ⟨"mixto.csv",
    "Keyword,price,URL,date\nok,5,https://a.com/,01-02-23\nbadprice,n/a,https://a.com/,01-02-23\nbaddate,5,https://a.com/,2023-02-01"⟩

def c8Row : CleanRow :=
  ⟨⟨2023, 2, 1⟩, some "ok", "a.com", 5, none, none, some 5, true⟩

theorem c8_cleaned_rows_valid_witness :
    c8Row ∈ (load_and_process_data [c8File]).rows
    ∧ (∃ s ∈ stageRowsOf [c8File],
        s.fecha = some c8Row.fecha
        ∧ cleanPrice (astypeStr s.priceStr) = some c8Row.price
        ∧ s.producto = c8Row.producto ∧ s.dominio = c8Row.dominio
        ∧ s.price_level = c8Row.price_level)
    ∧ (load_and_process_data [c8File]).rows.length = 1 :=
  ⟨by decide, (c8_cleaned_rows_valid [c8File]).1 c8Row (by decide), by decide⟩

/-! ### C3, C10 — the filter predicate -/

theorem prodMemB_eq_true (sel : FilterSel) (r : CleanRow) :
    prodMemB sel r = true ↔ ∃ p, r.producto = some p ∧ p ∈ sel.products := by
  cases h : r.producto <;> simp [prodMemB, h]

theorem tierMemB_eq_true (sel : FilterSel) (r : CleanRow) :
    tierMemB sel r = true ↔ ∃ v, r.price_level = some v ∧ v ∈ sel.priceLevels := by
  cases h : r.price_level <;> simp [tierMemB, h]

theorem filtered_df_two (data : ProcessResult) (sel : FilterSel) (s e : Date)
    (hrange : sel.dateRange = [s, e]) :
    filtered_df data sel
      = if data.hasPriceLevel && !sel.priceLevels.isEmpty then
          (baseFiltered data sel s e).filter (tierMemB sel)
        else baseFiltered data sel s e := by
  unfold filtered_df
  rw [hrange]

theorem mem_filtered_iff {data : ProcessResult} {sel : FilterSel} {s e : Date}
    (hrange : sel.dateRange = [s, e]) {r : CleanRow} :
    r ∈ filtered_df data sel ↔
      r ∈ data.rows ∧ Date.Le s r.fecha ∧ Date.Le r.fecha e
      ∧ (∃ p, r.producto = some p ∧ p ∈ sel.products)
      ∧ r.dominio ∈ sel.domains
      ∧ (data.hasPriceLevel = true ∧ sel.priceLevels ≠ [] →
          ∃ v, r.price_level = some v ∧ v ∈ sel.priceLevels) := by
  rw [filtered_df_two data sel s e hrange]
  unfold baseFiltered
  by_cases hpl : (data.hasPriceLevel && !sel.priceLevels.isEmpty) = true
  · rw [if_pos hpl]
    have hpl' := hpl
    simp only [Bool.and_eq_true] at hpl'
    obtain ⟨h1, h2⟩ := hpl'
    have hlv : sel.priceLevels ≠ [] := by
      intro h0
      rw [h0] at h2
      exact absurd h2 (by decide)
    simp only [List.mem_filter, Bool.and_eq_true, decide_eq_true_eq,
      prodMemB_eq_true, tierMemB_eq_true]
    constructor
    · rintro ⟨⟨hm, ⟨⟨hd1, hd2⟩, hpm⟩, hdm⟩, htm⟩
      exact ⟨hm, hd1, hd2, hpm, hdm, fun _ => htm⟩
    · rintro ⟨hm, hd1, hd2, hpm, hdm, htm⟩
      exact ⟨⟨hm, ⟨⟨hd1, hd2⟩, hpm⟩, hdm⟩, htm ⟨h1, hlv⟩⟩
  · rw [if_neg hpl]
    have hvac : ¬ (data.hasPriceLevel = true ∧ sel.priceLevels ≠ []) := by
      intro ⟨h1, h2⟩
      apply hpl
      rw [h1, Bool.true_and, Bool.not_eq_true']
      cases h0 : sel.priceLevels with
      | nil => exact absurd h0 h2
      | cons a t => rfl
    simp only [List.mem_filter, Bool.and_eq_true, decide_eq_true_eq, prodMemB_eq_true]
    constructor
    · rintro ⟨hm, ⟨⟨hd1, hd2⟩, hpm⟩, hdm⟩
      exact ⟨hm, hd1, hd2, hpm, hdm, fun h => absurd h hvac⟩
    · rintro ⟨hm, hd1, hd2, hpm, hdm, _⟩
      exact ⟨hm, ⟨⟨hd1, hd2⟩, hpm⟩, hdm⟩

theorem filtered_df_subset {data : ProcessResult} {sel : FilterSel} {r : CleanRow}
    (hr : r ∈ filtered_df data sel) : r ∈ data.rows := by
  rcases hdr : sel.dateRange with _ | ⟨s, _ | ⟨e, rest⟩⟩
  · rw [filtered_df, hdr] at hr
    exact absurd hr (List.not_mem_nil r)
  · rw [filtered_df, hdr] at hr
    exact absurd hr (List.not_mem_nil r)
  · cases rest with
    | nil => exact (mem_filtered_iff hdr).mp hr |>.1
    | cons c t =>
      rw [filtered_df, hdr] at hr
      exact absurd hr (List.not_mem_nil r)

/-- C3: a cleaned row passes the filtering step iff its date lies in the
inclusive selected range AND its `producto` and `dominio` are selected
AND — only when the dataset has a `price_level` column and at least one
tier is selected — its tier is selected; an incomplete date range gives
an empty filtered set, and an empty tier selection applies no tier
filter. -/
theorem c3_filter_predicate (data : ProcessResult) (sel : FilterSel) :
    (sel.dateRange.length < 2 → filtered_df data sel = [])
    ∧ ∀ s e, sel.dateRange = [s, e] → ∀ r,
        (r ∈ filtered_df data sel ↔
          r ∈ data.rows ∧ Date.Le s r.fecha ∧ Date.Le r.fecha e
          ∧ (∃ p, r.producto = some p ∧ p ∈ sel.products)
          ∧ r.dominio ∈ sel.domains
          ∧ (data.hasPriceLevel = true ∧ sel.priceLevels ≠ [] →
              ∃ v, r.price_level = some v ∧ v ∈ sel.priceLevels)) := by
  constructor
  · intro hlen
    rcases hdr : sel.dateRange with _ | ⟨a, _ | ⟨b, rest⟩⟩
    · rw [filtered_df, hdr]
    · rw [filtered_df, hdr]
    · rw [hdr] at hlen
      simp only [List.length_cons] at hlen
      omega
  · intro s e hrange r
    exact mem_filtered_iff hrange

def c3File : UploadedFile :=
  ⟨"niveles.csv",
    "Keyword,price,URL,date,price_level\np,5,https://a.com/,01-02-23,bajo\nq,6,https://b.com/,05-02-23,alto"⟩

def c3Row : CleanRow :=
  ⟨⟨2023, 2, 1⟩, some "p", "a.com", 5, some "bajo", some 1, some 5, true⟩

def c3Sel : FilterSel :=
  ⟨[⟨2023, 1, 1⟩, ⟨2023, 12, 31⟩], ["p", "q"], ["a.com"], ["bajo"]⟩

def c3SelShort : FilterSel :=
  ⟨[⟨2023, 1, 1⟩], ["p"], ["a.com"], []⟩

theorem c3_filter_predicate_witness :
    filtered_df (load_and_process_data [c3File]) c3SelShort = []
    ∧ (c3Row ∈ filtered_df (load_and_process_data [c3File]) c3Sel ↔
        c3Row ∈ (load_and_process_data [c3File]).rows
        ∧ Date.Le ⟨2023, 1, 1⟩ c3Row.fecha ∧ Date.Le c3Row.fecha ⟨2023, 12, 31⟩
        ∧ (∃ p, c3Row.producto = some p ∧ p ∈ c3Sel.products)
        ∧ c3Row.dominio ∈ c3Sel.domains
        ∧ ((load_and_process_data [c3File]).hasPriceLevel = true ∧ c3Sel.priceLevels ≠ [] →
            ∃ v, c3Row.price_level = some v ∧ v ∈ c3Sel.priceLevels)) :=
  ⟨(c3_filter_predicate (load_and_process_data [c3File]) c3SelShort).1 (by decide),
   (c3_filter_predicate (load_and_process_data [c3File]) c3Sel).2
     ⟨2023, 1, 1⟩ ⟨2023, 12, 31⟩ rfl c3Row⟩

/-- C10 (implicit): once the dataset has a `price_level` column and the
tier selection is nonempty — as in the default state, where every
distinct non-missing tier is selected — every filtered row has a
selected, hence non-missing, tier; a row with a missing tier is never
in the filtered set, so selecting all offered tiers is not a no-op; and
the default selection is nonempty as soon as some row has a tier. -/
theorem c10_missing_tier_excluded (data : ProcessResult) (sel : FilterSel)
    (hpl : data.hasPriceLevel = true) (hne : sel.priceLevels ≠ []) :
    (∀ r ∈ filtered_df data sel, ∃ v, r.price_level = some v ∧ v ∈ sel.priceLevels)
    ∧ (∀ r : CleanRow, r.price_level = none → r ∉ filtered_df data sel)
    ∧ ((∃ r ∈ data.rows, r.price_level ≠ none) → defaultPriceLevels data ≠ []) := by
  have hmain : ∀ r ∈ filtered_df data sel,
      ∃ v, r.price_level = some v ∧ v ∈ sel.priceLevels := by
    intro r hr
    rcases hdr : sel.dateRange with _ | ⟨s, _ | ⟨e, _ | ⟨c, t⟩⟩⟩
    · rw [filtered_df, hdr] at hr
      exact absurd hr (List.not_mem_nil r)
    · rw [filtered_df, hdr] at hr
      exact absurd hr (List.not_mem_nil r)
    · exact ((mem_filtered_iff hdr).mp hr).2.2.2.2.2 ⟨hpl, hne⟩
    · rw [filtered_df, hdr] at hr
      exact absurd hr (List.not_mem_nil r)
  refine ⟨hmain, ?_, ?_⟩
  · intro r h0 hmem
    obtain ⟨v, hv, _⟩ := hmain r hmem
    rw [h0] at hv
    exact Option.noConfusion hv
  · rintro ⟨r, hr, hlev⟩
    cases h : r.price_level with
    | none => exact absurd h hlev
    | some v =>
      have hvmem : v ∈ data.rows.filterMap CleanRow.price_level :=
        List.mem_filterMap.mpr ⟨r, hr, h⟩
      exact List.ne_nil_of_mem (List.mem_dedup.mpr hvmem)

def c10File : UploadedFile :=
  ⟨"niveles2.csv",
    "Keyword,price,URL,date,price_level\np,5,https://a.com/,01-02-23,bajo\np,6,https://b.com/,01-02-23,"⟩

def c10RowNoTier : CleanRow :=
  ⟨⟨2023, 2, 1⟩, some "p", "b.com", 6, none, none, some 5, false⟩

def c10Sel : FilterSel :=
  ⟨[⟨2023, 1, 1⟩, ⟨2023, 12, 31⟩], ["p"], ["a.com", "b.com"],
    defaultPriceLevels (load_and_process_data [c10File])⟩

theorem c10_missing_tier_excluded_witness :
    (load_and_process_data [c10File]).hasPriceLevel = true
    ∧ c10Sel.priceLevels ≠ []
    ∧ c10RowNoTier ∈ (load_and_process_data [c10File]).rows
    ∧ (∀ r ∈ filtered_df (load_and_process_data [c10File]) c10Sel,
        ∃ v, r.price_level = some v ∧ v ∈ c10Sel.priceLevels)
    ∧ c10RowNoTier ∉ filtered_df (load_and_process_data [c10File]) c10Sel :=
  ⟨by decide, by decide, by decide,
   (c10_missing_tier_excluded (load_and_process_data [c10File]) c10Sel
     (by decide) (by decide)).1,
   (c10_missing_tier_excluded (load_and_process_data [c10File]) c10Sel
     (by decide) (by decide)).2.1 c10RowNoTier rfl⟩

/-! ### C9 — the lowest-price ranking chart (modelled from the spec) -/

/-- Spec-side predicate: the row held the lowest price among all
competitors for its (`fecha`, `producto`) group over the full cleaned
dataset. -/
def heldLowestInFull (files : List UploadedFile) (r : CleanRow) : Prop :=
  r.producto ≠ none ∧
    ∀ r' ∈ (load_and_process_data files).rows,
      r'.fecha = r.fecha → r'.producto = r.producto → r.price ≤ r'.price

instance (files : List UploadedFile) (r : CleanRow) :
    Decidable (heldLowestInFull files r) := by
  unfold heldLowestInFull
  infer_instance

theorem flag_false_of_none {files : List UploadedFile} {r : CleanRow}
    (hr : r ∈ (load_and_process_data files).rows) (hp : r.producto = none) :
    r.es_precio_mas_bajo = false := by
  obtain ⟨q, hq, rfl⟩ := mem_load_rows.mp hr
  have hq0 : q.producto = none := hp
  simp [enrich, groupMin, hq0]

/-- C9: the lowest-price ranking chart's value for a competitor domain
equals the number of currently filtered rows of that domain whose price
was the minimum of their (`fecha`, `producto`) group over the full
cleaned dataset. -/
theorem c9_lowest_price_ranking (files : List UploadedFile) (sel : FilterSel) (d : String) :
    lowestPriceRankingCount (filtered_df (load_and_process_data files) sel) d
      = ((filtered_df (load_and_process_data files) sel).filter
          (fun r => decide (r.dominio = d) && decide (heldLowestInFull files r))).length := by
  unfold lowestPriceRankingCount
  congr 1
  apply List.filter_congr
  intro r hrF
  have hr : r ∈ (load_and_process_data files).rows := filtered_df_subset hrF
  have hkey : r.es_precio_mas_bajo = decide (heldLowestInFull files r) := by
    cases hp : r.producto with
    | none =>
      rw [flag_false_of_none hr hp]
      have hnot : ¬ heldLowestInFull files r := fun h => h.1 hp
      simp [hnot]
    | some p =>
      by_cases hheld : heldLowestInFull files r
      · rw [decide_eq_true hheld]
        exact (flag_iff_min files r hr p hp).mpr hheld.2
      · rw [decide_eq_false hheld]
        cases hes : r.es_precio_mas_bajo with
        | false => rfl
        | true =>
          exact absurd ⟨by simp [hp], (flag_iff_min files r hr p hp).mp hes⟩ hheld
  rw [hkey]

/-! ### C4 — domain derivation from the URL -/

/-- Spec-side rule: remove only a leading `www.` from the netloc and
nothing else. -/
def stripLeadingWww (s : String) : String :=
  match s.toList with
  | 'w' :: 'w' :: 'w' :: '.' :: rest => rest.asString
  | _ => s

def c4File : UploadedFile :=
  ⟨"urls.csv", "Keyword,price,URL,date\np,5,https://awww.example.com/x,01-02-23"⟩

/-- C4 counterexample: the code removes every occurrence of the
substring `www.` from the netloc, not only a leading one — on
`https://awww.example.com/x` (netloc `awww.example.com`) it produces
`aexample.com`, while removing only a leading `www.` would keep
`awww.example.com`; the pipeline indeed stores `aexample.com`. -/
theorem c4_domain_counterexample :
    netloc "https://awww.example.com/x" = "awww.example.com"
    ∧ dominioOfUrl (some "https://awww.example.com/x") = "aexample.com"
    ∧ stripLeadingWww (netloc "https://awww.example.com/x") = "awww.example.com"
    ∧ dominioOfUrl (some "https://awww.example.com/x")
        ≠ stripLeadingWww (netloc "https://awww.example.com/x")
    ∧ (load_and_process_data [c4File]).rows.map CleanRow.dominio = ["aexample.com"] :=
  ⟨by decide, by decide, by decide, by decide, by decide⟩

/-- C4 amended: `dominio` is the network-location portion of the URL
with every occurrence of the substring `www.` removed (not only a
leading one); the two spec examples still hold, since their netlocs
contain `www.` at most as a leading prefix. -/
theorem c4_domain_amended :
    dominioOfUrl (some "https://www.example.com/product/123") = "example.com"
    ∧ dominioOfUrl (some "https://shop.example.com/x") = "shop.example.com"
    ∧ (∀ cell : Option String, dominioOfUrl cell = removeWww (netloc (astypeStr cell)))
    ∧ ∀ cols row, (stageRow cols row).dominio = dominioOfUrl (getCell cols row "URL") :=
  ⟨by decide, by decide, fun _ => rfl, fun _ _ => rfl⟩

/-! ### C5 — no semicolon fallback -/

def c5File : UploadedFile :=
  ⟨"datos.csv", "Keyword;price;URL;date\nwidget;10;https://a.com/x;01-02-23"⟩

def c5Table : CsvTable :=
  ⟨["Keyword;price;URL;date"], [[some "widget;10;https://a.com/x;01-02-23"]]⟩

/-- C5 counterexample: a semicolon-delimited file with the required
columns parses (comma-delimited) to a single column, so it is skipped
with a missing-columns warning and none of its rows reach the cleaned
dataset — there is no semicolon re-parse. -/
theorem c5_no_semicolon_retry_counterexample :
    readCsv ',' c5File.content = .ok c5Table
    ∧ c5Table.cols.length = 1
    ∧ (load_and_process_data [c5File]).rows = []
    ∧ (load_and_process_data [c5File]).warnings = [Warning.missingCols "datos.csv"] :=
  ⟨rfl, rfl, by decide, by decide⟩

/-- C5 amended: `load_and_process_data` parses every file with the
comma delimiter only and never retries with semicolon; any file whose
comma-parse lacks a required (trimmed) column — as a semicolon-delimited
file does, parsing to one column — is skipped with a warning naming it
and contributes no rows. -/
theorem c5_comma_only (f : UploadedFile) (t : CsvTable)
    (hparse : readCsv ',' f.content = .ok t)
    (hmiss : ¬ requiredCols.all (fun c => (t.cols.map strTrim).contains c) = true) :
    load_and_process_data [f] = ⟨[], false, [Warning.missingCols f.name]⟩ := by
  have hpf : processFile f = .error (.missingCols f.name) := by
    unfold processFile
    rw [hparse]
    exact if_neg hmiss
  unfold load_and_process_data
  simp [fileDatas, fileWarnings, hpf, exOk?, exErr?]

theorem c5_comma_only_witness :
    readCsv ',' c5File.content = .ok c5Table
    ∧ ¬ requiredCols.all (fun c => (c5Table.cols.map strTrim).contains c) = true
    ∧ load_and_process_data [c5File] = ⟨[], false, [Warning.missingCols "datos.csv"]⟩ :=
  ⟨rfl, by decide, c5_comma_only c5File c5Table rfl (by decide)⟩

/-! ### C6 — per-file failure isolation -/

theorem fileDatas_append_error {fbad : UploadedFile} {w : Warning}
    (hw : processFile fbad = .error w) (xs ys : List UploadedFile) :
    fileDatas (xs ++ fbad :: ys) = fileDatas (xs ++ ys) := by
  simp [fileDatas, List.map_append, List.filterMap_append, hw, exOk?]

theorem fileWarnings_append_error {fbad : UploadedFile} {w : Warning}
    (hw : processFile fbad = .error w) (xs ys : List UploadedFile) :
    fileWarnings (xs ++ fbad :: ys) = fileWarnings xs ++ w :: fileWarnings ys := by
  simp [fileWarnings, List.map_append, List.filterMap_append, hw, exErr?]

theorem processFile_error_file {f : UploadedFile} {w : Warning}
    (h : processFile f = .error w) : w.file? = some f.name := by
  unfold processFile at h
  cases hr : readCsv ',' f.content with
  | error e =>
    rw [hr] at h
    cases h
    rfl
  | ok t =>
    rw [hr] at h
    dsimp only at h
    by_cases hc : requiredCols.all (fun c => ((t.cols.map strTrim)).contains c) = true
    · rw [if_pos hc] at h
      cases h
    · rw [if_neg hc] at h
      cases h
      rfl

theorem mem_load_warnings {files : List UploadedFile} (hne : files.isEmpty = false)
    {w : Warning} (hw : w ∈ fileWarnings files) :
    w ∈ (load_and_process_data files).warnings := by
  unfold load_and_process_data
  rw [hne]
  simp only [Bool.false_eq_true, if_false]
  by_cases h2 : (fileDatas files).isEmpty
  · rw [if_pos h2]
    exact hw
  · rw [if_neg h2]
    by_cases h3 : ((stageRowsOf files).filter (fun s => s.fecha.isSome)).isEmpty
    · rw [if_pos h3]
      exact List.mem_append_left _ hw
    · rw [if_neg h3]
      exact hw

/-- C6: a file whose processing fails (parse error or missing required
columns) is skipped with a warning naming that file, and the cleaned
rows are exactly those obtained from the remaining files. -/
theorem c6_failure_isolation (xs ys : List UploadedFile) (fbad : UploadedFile)
    (w : Warning) (hw : processFile fbad = .error w) :
    (load_and_process_data (xs ++ fbad :: ys)).rows
        = (load_and_process_data (xs ++ ys)).rows
    ∧ w ∈ (load_and_process_data (xs ++ fbad :: ys)).warnings
    ∧ w.file? = some fbad.name := by
  have hdatas : fileDatas (xs ++ fbad :: ys) = fileDatas (xs ++ ys) :=
    fileDatas_append_error hw xs ys
  have hstage : stageRowsOf (xs ++ fbad :: ys) = stageRowsOf (xs ++ ys) := by
    rw [stageRowsOf, stageRowsOf, hdatas]
  have hpl : hasPLOf (xs ++ fbad :: ys) = hasPLOf (xs ++ ys) := by
    rw [hasPLOf, hasPLOf, hdatas]
  have hcore : corePriced (xs ++ fbad :: ys) = corePriced (xs ++ ys) := by
    rw [corePriced, corePriced, hstage]
  refine ⟨?_, ?_, processFile_error_file hw⟩
  · rw [load_rows_eq, load_rows_eq, hcore, hpl]
  · apply mem_load_warnings (by cases xs <;> rfl)
    rw [fileWarnings_append_error hw]
    exact List.mem_append_right _ (List.mem_cons_self _ _)

def c6GoodFile1 : UploadedFile :=
  ⟨"bueno1.csv", "Keyword,price,URL,date\np,5,https://a.com/,01-02-23"⟩

def c6BadFile : UploadedFile :=
  ⟨"malo.csv", "a,b\n1,2\n1,2,3"⟩

def c6GoodFile2 : UploadedFile :=
  ⟨"bueno2.csv", "Keyword,price,URL,date\nq,6,https://b.com/,02-02-23"⟩

theorem c6_failure_isolation_witness :
    processFile c6BadFile = .error (.parseError "malo.csv" "Error tokenizing data")
    ∧ ((load_and_process_data [c6GoodFile1, c6BadFile, c6GoodFile2]).rows
        = (load_and_process_data [c6GoodFile1, c6GoodFile2]).rows
      ∧ (Warning.parseError "malo.csv" "Error tokenizing data")
          ∈ (load_and_process_data [c6GoodFile1, c6BadFile, c6GoodFile2]).warnings
      ∧ (Warning.parseError "malo.csv" "Error tokenizing data").file? = some c6BadFile.name)
    ∧ (load_and_process_data [c6GoodFile1, c6GoodFile2]).rows.length = 2 :=
  ⟨rfl,
   c6_failure_isolation [c6GoodFile1] [c6GoodFile2] c6BadFile
     (.parseError "malo.csv" "Error tokenizing data") rfl,
   by decide⟩

/-! ### C7 — empty input and empty result -/

/-- C7: with zero files the pipeline returns an empty dataset and no
warnings; and whenever the cleaned dataset of a nonempty upload is
empty (for instance every price unparseable), the application stops in
the no-valid-data state, rendering no charts. -/
theorem c7_empty_states (files : List UploadedFile)
    (hne : files ≠ []) (hempty : (load_and_process_data files).rows = []) :
    load_and_process_data [] = ⟨[], false, []⟩
    ∧ appPhase files = AppPhase.noValidData := by
  refine ⟨rfl, ?_⟩
  unfold appPhase
  have h1 : files.isEmpty = false := by
    cases files with
    | nil => exact absurd rfl hne
    | cons a t => rfl
  rw [h1]
  simp [hempty]

def c7NaFile : UploadedFile :=
  ⟨"sinprecios.csv",
    "Keyword,price,URL,date\np,n/a,https://a.com/,01-02-23\nq,n/a,https://b.com/,02-02-23"⟩

theorem c7_empty_states_witness :
    ([c7NaFile] ≠ ([] : List UploadedFile))
    ∧ (load_and_process_data [c7NaFile]).rows = []
    ∧ (load_and_process_data ([] : List UploadedFile) = ⟨[], false, []⟩
        ∧ appPhase [c7NaFile] = AppPhase.noValidData) :=
  ⟨by decide, by decide, c7_empty_states [c7NaFile] (by decide) (by decide)⟩
